import Mathlib

/-!
Verification of the ccc compiler-driver core (`src/tools/ccc/ccclib/Driver.py`).

The driver's pipeline construction (`Driver.buildNormalPipeline`,
`Driver.buildPipeline`), job binding (`Driver.bindPhases` with its nested
`createJobs`), and the `-ccc-` testing-hook option loop in `Driver.run` are
embedded as executable Lean functions.  The auxiliary modules the driver
imports (`Types`, `Phases`, `Jobs`, and the option table of `Arguments`) are
not part of the source tree; their data definitions are modelled from the
specification, and each such definition is marked `Modelled from the spec`.
-/

namespace CCC

/-- Modelled from the spec: the closed set of file types of the `Types`
module (C / C++ / Objective-C sources and their preprocessed forms, headers,
assembly with and without preprocessing, LLVM IR, object, PCH, image,
nothing). -/
inductive FileType
  | CType
  | CTypeNoPP
  | CXXType
  | CXXTypeNoPP
  | ObjCType
  | ObjCTypeNoPP
  | ObjCXXType
  | ObjCXXTypeNoPP
  | CHeaderType
  | AsmTypeWithPP
  | AsmTypeNoPP
  | LLVMAsmType
  | ObjectType
  | PCHType
  | ImageType
  | NothingType
deriving DecidableEq

/-- Modelled from the spec: every type has a name (`Types` module). -/
def FileType.name : FileType → String
  | .CType => "c"
  | .CTypeNoPP => "cpp-output"
  | .CXXType => "c++"
  | .CXXTypeNoPP => "c++-cpp-output"
  | .ObjCType => "objective-c"
  | .ObjCTypeNoPP => "objective-c-cpp-output"
  | .ObjCXXType => "objective-c++"
  | .ObjCXXTypeNoPP => "objective-c++-cpp-output"
  | .CHeaderType => "c-header"
  | .AsmTypeWithPP => "assembler-with-cpp"
  | .AsmTypeNoPP => "assembler"
  | .LLVMAsmType => "llvm-asm"
  | .ObjectType => "object"
  | .PCHType => "precompiled-header"
  | .ImageType => "image"
  | .NothingType => "nothing"

/-- Modelled from the spec: the optional preprocess-source type of each file
type (`Types` module); sources preprocess to their preprocessed forms,
assembly-with-cpp preprocesses to plain assembly. -/
def FileType.preprocess : FileType → Option FileType
  | .CType => some .CTypeNoPP
  | .CXXType => some .CXXTypeNoPP
  | .ObjCType => some .ObjCTypeNoPP
  | .ObjCXXType => some .ObjCXXTypeNoPP
  | .AsmTypeWithPP => some .AsmTypeNoPP
  | _ => none

/-- Modelled from the spec: the `onlyAssemble` boolean of each type. -/
def FileType.onlyAssemble : FileType → Bool
  | .AsmTypeWithPP => true
  | .AsmTypeNoPP => true
  | _ => false

/-- Modelled from the spec: the `onlyPrecompile` boolean of each type. -/
def FileType.onlyPrecompile : FileType → Bool
  | .CHeaderType => true
  | _ => false

/-- Modelled from the spec: the optional temp-file suffix of each type. -/
def FileType.tempSuffix : FileType → Option String
  | .CType => some ("c")
  | .CTypeNoPP => some ("i")
  | .CXXType => some ("cc")
  | .CXXTypeNoPP => some ("ii")
  | .ObjCType => some ("m")
  | .ObjCTypeNoPP => some ("mi")
  | .ObjCXXType => some ("mm")
  | .ObjCXXTypeNoPP => some ("mii")
  | .CHeaderType => some ("h")
  | .AsmTypeWithPP => some ("S")
  | .AsmTypeNoPP => some ("s")
  | .LLVMAsmType => some ("ll")
  | .ObjectType => some ("o")
  | .PCHType => some ("gch")
  | .ImageType => some ("out")
  | .NothingType => none

/-- Modelled from the spec: the suffix → type lookup table (`kTypeSuffixMap`
of the `Types` module).  Keys carry the leading dot, as produced by
`os.path.splitext`. -/
def kTypeSuffixMap (ext : String) : Option FileType :=
  if ext = ".c" then some .CType
  else if ext = ".i" then some .CTypeNoPP
  else if ext = ".cpp" ∨ ext = ".cc" ∨ ext = ".cxx" ∨ ext = ".C" then some .CXXType
  else if ext = ".ii" then some .CXXTypeNoPP
  else if ext = ".m" then some .ObjCType
  else if ext = ".mi" then some .ObjCTypeNoPP
  else if ext = ".mm" ∨ ext = ".M" then some .ObjCXXType
  else if ext = ".mii" then some .ObjCXXTypeNoPP
  else if ext = ".h" then some .CHeaderType
  else if ext = ".S" then some .AsmTypeWithPP
  else if ext = ".s" then some .AsmTypeNoPP
  else if ext = ".ll" then some .LLVMAsmType
  else if ext = ".o" then some .ObjectType
  else if ext = ".gch" then some .PCHType
  else none

/-- Modelled from the spec: the `-x` specifier → type lookup table
(`kTypeSpecifierMap` of the `Types` module).  The specifier `none` is present
in the table and maps to no type, which re-enables classification by
suffix. -/
def kTypeSpecifierMap (s : String) : Option (Option FileType) :=
  if s = "none" then some none
  else if s = "c" then some (some .CType)
  else if s = "cpp-output" then some (some .CTypeNoPP)
  else if s = "c++" then some (some .CXXType)
  else if s = "c++-cpp-output" then some (some .CXXTypeNoPP)
  else if s = "objective-c" then some (some .ObjCType)
  else if s = "objective-c-cpp-output" then some (some .ObjCTypeNoPP)
  else if s = "objective-c++" then some (some .ObjCXXType)
  else if s = "c-header" then some (some .CHeaderType)
  else if s = "assembler" then some (some .AsmTypeNoPP)
  else if s = "assembler-with-cpp" then some (some .AsmTypeWithPP)
  else none

/-- Modelled from the spec: the ordered phase enum of the `Phases` module
(`Preprocess < Precompile < Compile < Assemble < Link < Lipo`, with
`PostAssemble` the order value past everything; see below). -/
inductive Phase
  | Preprocess
  | Precompile
  | Compile
  | Assemble
  | Link
  | Lipo
deriving DecidableEq

/-- Modelled from the spec: the order value of each phase. -/
def Phase.order : Phase → Nat
  | .Preprocess => 0
  | .Precompile => 1
  | .Compile => 2
  | .Assemble => 3
  | .Link => 4
  | .Lipo => 5

/-- Modelled from the spec: `Phases.Phase.eOrderPostAssemble`, the final-phase
order meaning "everything through linking". -/
def eOrderPostAssemble : Nat := 6

/-- Modelled from the spec: the option schema entries of the `Arguments`
module that `Driver.py` inspects by identity, plus `other` for the remaining
table entries (carrying the flag name and the `isLinkerInput` marker). -/
inductive Opt
  | inputOption
  | xOption
  | cOption
  | EOption
  | SOption
  | syntaxOnlyOption
  | combineOption
  | ZOption
  | hashHashHashOption
  | oOption
  | archOption
  | saveTempsOption
  | saveTempsOption2
  | pipeOption
  | noIntegratedCPPOption
  | traditionalCPPOption
  | other (name : String) (linkerInput : Bool)
deriving DecidableEq

/-- Modelled from the spec: the stable name of each schema entry. -/
def Opt.name : Opt → String
  | .inputOption => "<input>"
  | .xOption => "-x"
  | .cOption => "-c"
  | .EOption => "-E"
  | .SOption => "-S"
  | .syntaxOnlyOption => "-fsyntax-only"
  | .combineOption => "-combine"
  | .ZOption => "-Z"
  | .hashHashHashOption => "-###"
  | .oOption => "-o"
  | .archOption => "-arch"
  | .saveTempsOption => "-save-temps"
  | .saveTempsOption2 => "--save-temps"
  | .pipeOption => "-pipe"
  | .noIntegratedCPPOption => "-no-integrated-cpp"
  | .traditionalCPPOption => "-traditional-cpp"
  | .other n _ => n

/-- Modelled from the spec: the `isLinkerInput` marker of a schema entry. -/
def Opt.isLinkerInput : Opt → Bool
  | .other _ b => b
  | _ => false

/-- An argument occurrence: its schema entry and its (derived) value, as
returned by `args.getValue`. -/
structure Arg where
  opt : Opt
  value : String
deriving DecidableEq

/-- `args.getLastArg(option)`: the last occurrence of a schema entry in the
argument list (last-wins semantics). -/
def getLastArg (o : Opt) (args : List Arg) : Option Arg :=
  (args.filter (fun a => a.opt = o)).getLast?

/-- The action graph of the `Phases` module: input leaves, job nodes, and
architecture-binding wrappers (`Driver.py` constructs these;
node shapes modelled from the spec). -/
inductive Action
  | inputAction (filename : Arg) (ty : FileType)
  | jobAction (phase : Phase) (inputs : List Action) (ty : FileType)
  | bindArchAction (p : Action) (arch : Arg)

/-- The produced type of an action (a `BindArchAction` produces the type of
the subgraph it wraps). -/
def Action.type : Action → FileType
  | .inputAction _ t => t
  | .jobAction _ _ t => t
  | .bindArchAction p _ => p.type

/-- Whether an action is a `JobAction` whose phase is `Link`. -/
def Action.isLinkJob : Action → Bool
  | .jobAction Phase.Link _ _ => true
  | _ => false

/-! ### Path helpers (`os.path` semantics used by the driver) -/

/-- Index of the last occurrence of a character in a character list. -/
def lastIndexOf (l : List Char) (c : Char) : Option Nat :=
  ((l.enum.filter (fun x => x.2 = c)).getLast?).map (fun x => x.1)

/-- `os.path.splitext(p)`: split off the extension at the last dot that
occurs after the last slash, ignoring leading dots of the basename. -/
def splitext (p : String) : String × String :=
  let l := p.toList
  let sepIndex : Int := match lastIndexOf l '/' with
    | some i => (i : Int)
    | none => -1
  let dotIndex : Int := match lastIndexOf l '.' with
    | some i => (i : Int)
    | none => -1
  if sepIndex < dotIndex then
    let di := dotIndex.toNat
    let start := (sepIndex + 1).toNat
    if (List.range (di - start)).any (fun k => ¬ l.get? (start + k) = some '.') then
      (String.mk (l.take di), String.mk (l.drop di))
    else (p, "")
  else (p, "")

/-- `os.path.basename(p)`: the part after the last slash. -/
def basename (p : String) : String :=
  match lastIndexOf p.toList '/' with
  | some i => String.mk (p.toList.drop (i + 1))
  | none => p

/-! ### Errors raised by the driver -/

/-- The error kinds `Driver.py` raises during pipeline construction:
`Arguments.InvalidArgumentsError` and `NotImplementedError`. -/
inductive DriverError
  | invalidArguments (msg : String)
  | notImplemented (msg : String)
deriving DecidableEq

def msgCombineNotSupported : String := "-combine is not yet supported"

def msgZUnsupported : String := "unsupported use of internal gcc option"

def msgNoInputFiles : String := "no input files"

def msgDashMMultipleArch : String := "Cannot use -M options with multiple arch flags."

def msgSaveTempsMultipleArch : String := "Cannot use -save-temps with multiple arch flags."

/-! ### `Driver.buildNormalPipeline` (Driver.py lines 313-495) -/

/-- The input-classification scan of `buildNormalPipeline` (lines 320-371):
walk the arguments in order keeping the current `-x` override; positional
inputs classify by override or suffix (unknown suffix falls back to object),
are dropped when the file does not exist; linker-input options are tagged as
objects; `-x` updates the override (unknown language warns and falls back to
object). -/
def classifyInputsAux (fileExists : String → Bool) (inputType : Option FileType) :
    List Arg → List (FileType × Arg)
  | [] => []
  | a :: rest =>
    if a.opt = Opt.inputOption then
      let klass := match inputType with
        | none =>
          let ext := (splitext a.value).2
          (match kTypeSuffixMap ext with
           | some t => t
           | none => FileType.ObjectType)
        | some t => t
      if fileExists a.value then
        (klass, a) :: classifyInputsAux fileExists inputType rest
      else
        classifyInputsAux fileExists inputType rest
    else if a.opt.isLinkerInput then
      (FileType.ObjectType, a) :: classifyInputsAux fileExists inputType rest
    else if a.opt = Opt.xOption then
      let newType := match kTypeSpecifierMap a.value with
        | some o => o
        | none => some FileType.ObjectType
      classifyInputsAux fileExists newType rest
    else
      classifyInputsAux fileExists inputType rest

def classifyInputs (fileExists : String → Bool) (args : List Arg) : List (FileType × Arg) :=
  classifyInputsAux fileExists none args

/-- The compilation-mode determination of `buildNormalPipeline` (lines
378-393): `-E` → Preprocess, `-fsyntax-only` → Compile, `-S` → Compile,
`-c` → Assemble, otherwise PostAssemble. -/
def computeFinalPhase (hasDashE hasSyntaxOnly hasDashS hasDashC : Bool) : Nat :=
  if hasDashE then Phase.order Phase.Preprocess
  else if hasSyntaxOnly then Phase.order Phase.Compile
  else if hasDashS then Phase.order Phase.Compile
  else if hasDashC then Phase.order Phase.Assemble
  else eOrderPostAssemble

/-- The per-input phase sequence of `buildNormalPipeline` (lines 424-437):
preprocess prepended when the type has a preprocess-source type; object →
link only; onlyAssemble → assemble then link; onlyPrecompile → precompile;
otherwise compile, assemble, link. -/
def phaseSequence (klass : FileType) : List Phase :=
  (if klass.preprocess.isSome then [Phase.Preprocess] else []) ++
  (if klass = FileType.ObjectType then [Phase.Link]
   else if klass.onlyAssemble then [Phase.Assemble, Phase.Link]
   else if klass.onlyPrecompile then [Phase.Precompile]
   else [Phase.Compile, Phase.Assemble, Phase.Link])

/-- The chain-building loop of `buildNormalPipeline` (lines 449-484): fold
the phase sequence into a chain of `JobAction`s, stopping when the produced
type becomes nothing or the next phase is past the requested final phase; a
link transition appends the in-progress action to the shared linker-input
list and terminates the chain.  Returns the action to append to the
top-level list (if any) and the action to append to the linker inputs (if
any).  The `Preprocess`-without-preprocess-type and `Lipo` arms are
unreachable on sequences produced by `phaseSequence` (the source asserts,
respectively raises, there). -/
def runSequence (hasSyntaxOnly : Bool) (finalPhase : Nat) (klass : FileType) :
    List Phase → Action → Option Action × Option Action
  | [], current => (some current, none)
  | t :: rest, current =>
    if current.type = FileType.NothingType ∨ finalPhase < t.order then
      (some current, none)
    else
      match t with
      | Phase.Preprocess =>
        (match klass.preprocess with
         | some ppTy =>
           runSequence hasSyntaxOnly finalPhase klass rest
             (Action.jobAction Phase.Preprocess [current] ppTy)
         | none => (none, none))
      | Phase.Precompile =>
        runSequence hasSyntaxOnly finalPhase klass rest
          (Action.jobAction Phase.Precompile [current] FileType.PCHType)
      | Phase.Compile =>
        runSequence hasSyntaxOnly finalPhase klass rest
          (Action.jobAction Phase.Compile [current]
            (if hasSyntaxOnly then FileType.NothingType else FileType.AsmTypeNoPP))
      | Phase.Assemble =>
        runSequence hasSyntaxOnly finalPhase klass rest
          (Action.jobAction Phase.Assemble [current] FileType.ObjectType)
      | Phase.Link => (none, some current)
      | Phase.Lipo => (none, none)

/-- One input of the per-input loop of `buildNormalPipeline` (lines
415-488): skip the input (with an "input file unused" warning) when the
first phase of its sequence is already past the final phase, otherwise build
its chain. -/
def processInput (hasSyntaxOnly : Bool) (finalPhase : Nat) (klass : FileType) (input : Arg) :
    Option Action × Option Action :=
  match phaseSequence klass with
  | [] => (none, none)
  | s0 :: rest =>
    if finalPhase < s0.order then (none, none)
    else
      runSequence hasSyntaxOnly finalPhase klass (s0 :: rest)
        (Action.inputAction input klass)

/-- The whole per-input loop: top-level actions in input order, and the
shared linker-input list in input order. -/
def processInputs (hasSyntaxOnly : Bool) (finalPhase : Nat) :
    List (FileType × Arg) → List Action × List Action
  | [] => ([], [])
  | (k, a) :: rest =>
    let r := processInput hasSyntaxOnly finalPhase k a
    let rec' := processInputs hasSyntaxOnly finalPhase rest
    (r.1.toList ++ rec'.1, r.2.toList ++ rec'.2)

/-- `Driver.buildNormalPipeline` (lines 313-495): classify the inputs,
determine the compilation mode, reject `-combine` / `-Z*` / an empty input
set without `-###`, build the per-input chains, and append a single link
action over the collected linker inputs when there are any. -/
def buildNormalPipeline (fileExists : String → Bool) (args : List Arg) :
    Except DriverError (List Action) :=
  let hasCombine := getLastArg Opt.combineOption args
  let hasSyntaxOnly := getLastArg Opt.syntaxOnlyOption args
  let hasDashC := getLastArg Opt.cOption args
  let hasDashE := getLastArg Opt.EOption args
  let hasDashS := getLastArg Opt.SOption args
  let inputs := classifyInputs fileExists args
  let finalPhase := computeFinalPhase hasDashE.isSome hasSyntaxOnly.isSome
      hasDashS.isSome hasDashC.isSome
  if hasCombine.isSome then
    Except.error (DriverError.notImplemented msgCombineNotSupported)
  else if (getLastArg Opt.ZOption args).isSome then
    Except.error (DriverError.invalidArguments msgZUnsupported)
  else if inputs.isEmpty && (getLastArg Opt.hashHashHashOption args).isNone then
    Except.error (DriverError.invalidArguments msgNoInputFiles)
  else
    let pr := processInputs hasSyntaxOnly.isSome finalPhase inputs
    Except.ok (pr.1 ++
      (if pr.2.isEmpty then []
       else [Action.jobAction Phase.Link pr.2 FileType.ImageType]))

/-! ### `Driver.buildPipeline` (Driver.py lines 497-571) -/

/-- The environment `buildPipeline` consults: `os.path.exists` and
`hostInfo.getArchName(args)` (the latter modelled from the spec as the
host-provided default architecture name). -/
structure DriverContext where
  fileExists : String → Bool
  defaultArchName : String

/-- The `-arch` occurrences collected in order (lines 504-506). -/
def collectArchs (args : List Arg) : List Arg :=
  args.filter (fun a => a.opt = Opt.archOption)

/-- Character-list prefix test (Python's `str.startswith`). -/
def listStartsWith : List Char → List Char → Bool
  | _, [] => true
  | [], _ :: _ => false
  | a :: as, b :: bs => a = b && listStartsWith as bs

def strStarts (s pre : String) : Bool :=
  listStartsWith s.toList pre.toList

def strDropChars (s : String) (n : Nat) : String :=
  String.mk (s.toList.drop n)

/-- The last argument whose option name starts with `-M` (lines 504-508). -/
def findDashM (args : List Arg) : Option Arg :=
  (args.filter (fun a => strStarts a.opt.name ("-M"))).getLast?

/-- The architecture list used by `buildPipeline`: the collected `-arch`
arguments, or a single synthesized argument carrying the host default
architecture name when there are none (lines 510-512). -/
def archsOf (ctx : DriverContext) (args : List Arg) : List Arg :=
  let archs := collectArchs args
  if archs.isEmpty then [Arg.mk Opt.archOption ctx.defaultArchName] else archs

/-- Types the driver can combine with lipo (line 543): nothing, object,
image. -/
def lipoOkType (t : FileType) : Bool :=
  t = FileType.NothingType ∨ t = FileType.ObjectType ∨ t = FileType.ImageType

/-- Architecture multiplication of one top-level action (lines 546-557):
wrap in one `BindArchAction` per architecture, all sharing the same
subgraph; with a single architecture or a nothing-typed action the bind
nodes are emitted as-is, otherwise a single lipo action over them. -/
def wrapOne (archs : List Arg) (p : Action) : List Action :=
  let inputs := archs.map (fun a => Action.bindArchAction p a)
  if inputs.length = 1 ∨ p.type = FileType.NothingType then inputs
  else [Action.jobAction Phase.Lipo inputs p.type]

/-- The per-action loop of `buildPipeline` (lines 530-557), including the
rejection of non-linkable intermediates under multiple architectures. -/
def wrapAll (multiArch : Bool) (archs : List Arg) :
    List Action → Except DriverError (List Action)
  | [] => Except.ok []
  | p :: ps =>
    if multiArch ∧ ¬ lipoOkType p.type then
      Except.error (DriverError.invalidArguments
        ("Cannot use " ++ p.type.name ++ " output with multiple arch flags."))
    else
      match wrapAll multiArch archs ps with
      | Except.error e => Except.error e
      | Except.ok rest => Except.ok (wrapOne archs p ++ rest)

/-- `Driver.buildPipeline` (lines 497-571): collect the architectures, build
the normal pipeline, reject `-M*` and `-save-temps` under multiple
architectures, and multiply each top-level action across the
architectures. -/
def buildPipeline (ctx : DriverContext) (args : List Arg) :
    Except DriverError (List Action) :=
  let archs := archsOf ctx args
  let hasDashM := findDashM args
  let hasSaveTemps := (getLastArg Opt.saveTempsOption args).isSome ||
      (getLastArg Opt.saveTempsOption2 args).isSome
  match buildNormalPipeline ctx.fileExists args with
  | Except.error e => Except.error e
  | Except.ok actions =>
    if 1 < archs.length ∧ hasDashM.isSome then
      Except.error (DriverError.invalidArguments msgDashMMultipleArch)
    else if 1 < archs.length ∧ hasSaveTemps then
      Except.error (DriverError.invalidArguments msgSaveTempsMultipleArch)
    else wrapAll (decide (1 < archs.length)) archs actions

/-! ### The job model and `Driver.bindPhases` (Driver.py lines 573-720) -/

/-- Modelled from the spec: a tool is a capability descriptor queried for
`hasIntegratedCPP`, `acceptsPipedInput` and `canPipeOutput` (the `Tools`
module). -/
structure Tool where
  name : String
  hasIntegratedCPP : Bool
  acceptsPipedInput : Bool
  canPipeOutput : Bool
deriving DecidableEq

/-- The source of an `InputInfo` (and the output sink of a job): a filename
or `-o` argument, a piped job (identified by its index in the top-level job
list), or nothing. -/
inductive Source
  | argS (a : Arg)
  | pipedS (idx : Nat)
  | noneS
deriving DecidableEq

/-- Modelled from the spec: the record a tool's `constructJob` appends —
exactly one command per phase, carrying the tool, the phase, the bound
architecture, its resolved output sink and output type. -/
structure Command where
  toolName : String
  phase : Phase
  arch : Option String
  output : Source
  outType : FileType
deriving DecidableEq

/-- Modelled from the spec: a job is a plain command or a piped chain of
commands. -/
inductive Job
  | cmdJ (c : Command)
  | pipedJ (cs : List Command)
deriving DecidableEq

/-- Modelled from the spec: a toolchain selects a tool per phase and
translates the argument list for an architecture (`translateArgs`). -/
structure ToolChain where
  selectTool : Phase → Tool
  translateArgs : List Arg → Option Arg → List Arg

/-- The environment `bindPhases` consults: the host default toolchain and
the per-architecture toolchain lookup (`hostInfo.getToolChainForArch`). -/
structure BindContext where
  defaultToolChain : ToolChain
  toolChainForArch : String → ToolChain

/-- The `InputInfo` record of `bindPhases` (lines 600-611): source, type,
and the original base input whose name seeds derived output names. -/
structure InputInfo where
  source : Source
  type : FileType
  baseInput : Arg

/-- Errors of the binding stage: the `-o`-with-multiple-outputs
`InvalidArgumentsError`, a failed source assertion, an out-of-bounds input
access, and exhaustion of the recursion fuel (the Python recursion always
terminates; the fuel only makes the embedding total). -/
inductive BindError
  | invalidArgumentsB (msg : String)
  | assertFail
  | indexErr
  | outOfFuel
deriving DecidableEq

def msgCannotSpecifyO : String := "cannot specify -o when generating multiple files"

/-- The mutable per-invocation state of `bindPhases`: the top-level job list
and the temp-file allocation state. -/
structure BindState where
  jobs : List Job
  tempCounter : Nat

/-- Modelled from the spec: `tempfile.mkstemp(suffix=...)`, the OS
collision-free temp reservation, as a counter-indexed fresh name. -/
def mkTempName (counter : Nat) (suffix : String) : String :=
  "/tmp/ccc" ++ toString counter ++ suffix

/-- The `-pipe` handling of `bindPhases` (lines 581-588): the flag is looked
up and claimed, then overridden to `None` because pipe execution is not
wired up yet. -/
def suppressedPipe (args : List Arg) : Option Arg :=
  match getLastArg Opt.pipeOption args with
  | some _ => none
  | none => none

/-- The flags `bindPhases` computes once and `createJobs` captures (lines
576-597). -/
structure BindFlags where
  finalOutput : Option Arg
  hasSaveTemps : Bool
  hasNoIntegratedCPP : Bool
  hasTraditionalCPP : Bool
  hasPipe : Option Arg

def mkBindFlags (args : List Arg) : BindFlags :=
  BindFlags.mk
    (getLastArg Opt.oOption args)
    ((getLastArg Opt.saveTempsOption args).isSome ||
      (getLastArg Opt.saveTempsOption2 args).isSome)
    (getLastArg Opt.noIntegratedCPPOption args).isSome
    (getLastArg Opt.traditionalCPPOption args).isSome
    (suppressedPipe args)

/-- The inputs of a `JobAction` (empty for the other node kinds). -/
def Action.inputsOf : Action → List Action
  | .jobAction _ ins _ => ins
  | _ => []

/-- The integrated-CPP fusion decision of `createJobs` (lines 634-643):
when none of `-no-integrated-cpp`, `-traditional-cpp`, `-save-temps` is
present, the tool has an integrated preprocessor, and the action has exactly
one input which is a `Preprocess` job, replace the input list by that
preprocess job's own inputs.  Returns the decision and the input list to
use. -/
def integratedCPPFusion (hasNoIntegratedCPP hasTraditionalCPP hasSaveTemps : Bool)
    (tool : Tool) (inputs : List Action) : Bool × List Action :=
  if ¬ hasNoIntegratedCPP ∧ ¬ hasTraditionalCPP ∧ ¬ hasSaveTemps ∧
      tool.hasIntegratedCPP then
    match inputs with
    | [Action.jobAction Phase.Preprocess pins _] => (true, pins)
    | _ => (false, inputs)
  else (false, inputs)

/-- The pipe-output decision of `createJobs` (lines 645-663): the output
goes to a pipe only when the (post-fusion) input list has exactly one
element, the tool accepts piped input and can pipe output, and either this
is a top-level `Preprocess` action with no user `-o` (default-to-stdout for
`-E`) or `-pipe` survived (it never does in this revision, see
`suppressedPipe`). -/
def pipeDecision (tool : Tool) (inputListLength : Nat) (atTopLevel : Bool)
    (ph : Phase) (finalOutput : Option Arg) (hasPipe : Option Arg) : Bool :=
  let canAcceptPipe := decide (inputListLength = 1) && tool.acceptsPipedInput
  let canOutputToPipe := canAcceptPipe && tool.canPipeOutput
  if canOutputToPipe then
    if atTopLevel && (ph = Phase.Preprocess) && finalOutput.isNone then true
    else if hasPipe.isSome then true
    else false
  else false

/-- The output-location policy of `createJobs` for a non-nothing, non-pipe
output (lines 680-704): candidate `a.out` for images, otherwise
`base(inputName) + "." + tempSuffix` (asserting the suffix exists); a
top-level action with a user `-o` uses that argument; a top-level action or
`-save-temps` gets a fresh Separate `-o basename(candidate)`; anything else
gets a fresh temp file with suffix `"." + tempSuffix`.  Returns the chosen
`-o` argument and the advanced temp-allocation state. -/
def outputPolicy (finalOutput : Option Arg) (hasSaveTemps atTopLevel : Bool)
    (ty : FileType) (inputName : String) (counter : Nat) :
    Except BindError (Arg × Nat) :=
  match (if ty = FileType.ImageType then some ("a.out")
         else match ty.tempSuffix with
           | none => none
           | some suf => some ((splitext inputName).1 ++ "." ++ suf)) with
  | none => Except.error BindError.assertFail
  | some namedOutput =>
    match (if atTopLevel then finalOutput else none) with
    | some o => Except.ok (o, counter)
    | none =>
      if atTopLevel ∨ hasSaveTemps then
        Except.ok (Arg.mk Opt.oOption (basename namedOutput), counter)
      else
        match ty.tempSuffix with
        | none => Except.error BindError.assertFail
        | some suf =>
          Except.ok (Arg.mk Opt.oOption (mkTempName counter ("." ++ suf)),
            counter + 1)

/-- Append a command where the job belongs (lines 665-668 and 706):
either to the top-level job list or into the piped job it continues. -/
def appendCommand (jobs : List Job) (dest : Option Nat) (c : Command) : List Job :=
  match dest with
  | none => jobs ++ [Job.cmdJ c]
  | some k =>
    jobs.enum.map (fun x =>
      if x.1 = k then
        match x.2 with
        | Job.pipedJ cs => Job.pipedJ (cs ++ [c])
        | j => j
      else x.2)

mutual

/-- The recursive `createJobs` of `bindPhases` (lines 613-709): input leaves
return their filename; `BindArchAction` switches the toolchain and fixes the
architecture; a `JobAction` selects its tool, applies integrated-CPP fusion,
recurses into its (possibly fused) inputs, decides pipe output, picks the
job destination and the output location, and appends the constructed
command.  `fuel` only bounds the recursion depth to make the embedding a
total function. -/
def createJobs (ctx : BindContext) (args : List Arg) (fl : BindFlags) :
    Nat → BindState → ToolChain → Action → Bool → Bool → Option Arg →
    Option (List Arg) → Except BindError (BindState × InputInfo)
  | 0, _, _, _, _, _, _, _ => Except.error BindError.outOfFuel
  | Nat.succ fuel, st, tc, phase, canAcceptPipe, atTopLevel, arch, tcArgs =>
    match phase with
    | Action.inputAction filename ty =>
      Except.ok (st, InputInfo.mk (Source.argS filename) ty filename)
    | Action.bindArchAction child archArg =>
      createJobs ctx args fl fuel st (ctx.toolChainForArch archArg.value) child
        canAcceptPipe atTopLevel (some archArg) none
    | Action.jobAction phz ins outTy =>
      let tcArgsV := match tcArgs with
        | some t => t
        | none => tc.translateArgs args arch
      let tool := tc.selectTool phz
      let fused := integratedCPPFusion fl.hasNoIntegratedCPP fl.hasTraditionalCPP
          fl.hasSaveTemps tool ins
      let inputList := fused.2
      let canAcceptPipe2 := decide (inputList.length = 1) && tool.acceptsPipedInput
      match createJobsList ctx args fl fuel st tc inputList canAcceptPipe2 arch
          (some tcArgsV) with
      | Except.error e => Except.error e
      | Except.ok (st1, inputInfos) =>
        let outputToPipe := pipeDecision tool inputList.length atTopLevel phz
            fl.finalOutput fl.hasPipe
        match inputInfos with
        | [] => Except.error BindError.indexErr
        | i0 :: _ =>
          let jobDest : Option Nat :=
            if canAcceptPipe2 then
              match i0.source with
              | Source.pipedS k => some k
              | _ => none
            else none
          if outTy = FileType.NothingType then
            let cmd := Command.mk tool.name phz (arch.map (fun a => a.value))
                Source.noneS outTy
            Except.ok (BindState.mk (appendCommand st1.jobs jobDest cmd)
                st1.tempCounter,
              InputInfo.mk Source.noneS outTy i0.baseInput)
          else if outputToPipe then
            match jobDest with
            | some k =>
              let cmd := Command.mk tool.name phz (arch.map (fun a => a.value))
                  (Source.pipedS k) outTy
              Except.ok (BindState.mk (appendCommand st1.jobs (some k) cmd)
                  st1.tempCounter,
                InputInfo.mk (Source.pipedS k) outTy i0.baseInput)
            | none =>
              let k := st1.jobs.length
              let jobs2 := st1.jobs ++ [Job.pipedJ []]
              let cmd := Command.mk tool.name phz (arch.map (fun a => a.value))
                  (Source.pipedS k) outTy
              Except.ok (BindState.mk (appendCommand jobs2 (some k) cmd)
                  st1.tempCounter,
                InputInfo.mk (Source.pipedS k) outTy i0.baseInput)
          else
            match outputPolicy fl.finalOutput fl.hasSaveTemps atTopLevel outTy
                i0.baseInput.value st1.tempCounter with
            | Except.error e => Except.error e
            | Except.ok (outArg, counter2) =>
              let cmd := Command.mk tool.name phz (arch.map (fun a => a.value))
                  (Source.argS outArg) outTy
              Except.ok (BindState.mk (appendCommand st1.jobs jobDest cmd)
                  counter2,
                InputInfo.mk (Source.argS outArg) outTy i0.baseInput)

/-- `createJobs` mapped over an input list (line 647): the children are
never at top level. -/
def createJobsList (ctx : BindContext) (args : List Arg) (fl : BindFlags) :
    Nat → BindState → ToolChain → List Action → Bool → Option Arg →
    Option (List Arg) → Except BindError (BindState × List InputInfo)
  | _, st, _, [], _, _, _ => Except.ok (st, [])
  | fuel, st, tc, p :: ps, cap, arch, tcArgs =>
    match createJobs ctx args fl fuel st tc p cap false arch tcArgs with
    | Except.error e => Except.error e
    | Except.ok (st1, info) =>
      match createJobsList ctx args fl fuel st1 tc ps cap arch tcArgs with
      | Except.error e => Except.error e
      | Except.ok (st2, infos) => Except.ok (st2, info :: infos)

end

/-- The top-level loop of `bindPhases` (lines 716-718): every top-level
action is bound with `canAcceptPipe=true`, `atTopLevel=true`, no
architecture and the default toolchain. -/
def bindLoop (ctx : BindContext) (args : List Arg) (fl : BindFlags) (fuel : Nat) :
    List Action → BindState → Except BindError BindState
  | [], st => Except.ok st
  | p :: ps, st =>
    match createJobs ctx args fl fuel st ctx.defaultToolChain p true true
        none none with
    | Except.error e => Except.error e
    | Except.ok (st1, _) => bindLoop ctx args fl fuel ps st1

/-- `Driver.bindPhases` (lines 573-720): compute the flags, reject `-o`
when more than one top-level action produces a file, then bind every
top-level action in order and return the job list. -/
def bindPhases (ctx : BindContext) (args : List Arg) (phases : List Action)
    (fuel : Nat) : Except BindError (List Job) :=
  let fl := mkBindFlags args
  if fl.finalOutput.isSome &&
      decide (1 < (phases.filter
        (fun a => decide (¬ a.type = FileType.NothingType))).length) then
    Except.error (BindError.invalidArgumentsB msgCannotSpecifyO)
  else
    (bindLoop ctx args fl fuel phases (BindState.mk [] 0)).map
      (fun st => st.jobs)

/-! ### The `-ccc-` testing-hook option loop of `Driver.run`
(Driver.py lines 102-127) -/

/-- The driver state the `-ccc-` loop mutates. -/
structure CCCState where
  cccPrintOptions : Bool
  cccPrintPhases : Bool
  cccCXX : Bool
  cccClang : Bool
  cccEcho : Bool
  cccFallback : Bool
  cccHostBits : Option String
  cccHostMachine : Option String
  cccHostSystem : Option String
  cccHostRelease : Option String
deriving DecidableEq

def initCCCState : CCCState :=
  CCCState.mk false false false false false false none none none none

/-- How the `-ccc-` loop can fail: the explicit `InvalidArgumentsError` for
an unknown `-ccc-` option, or Python's `IndexError` from reading `argv[0]`
of an empty list. -/
inductive CCCError
  | invalidOption (msg : String)
  | indexError
deriving DecidableEq

/-- The `-ccc-` option loop of `Driver.run` (lines 102-127): consume leading
`-ccc-` options, the four host-override options taking their value from the
next token with an unguarded `argv[0]` read. -/
def cccOptionLoop : CCCState → List String → Except CCCError (CCCState × List String)
  | st, [] => Except.ok (st, [])
  | st, a :: rest =>
    if strStarts a ("-ccc-") then
      let opt := strDropChars a 5
      if opt = "print-options" then
        cccOptionLoop { st with cccPrintOptions := true } rest
      else if opt = "print-phases" then
        cccOptionLoop { st with cccPrintPhases := true } rest
      else if opt = "cxx" then
        cccOptionLoop { st with cccCXX := true } rest
      else if opt = "clang" then
        cccOptionLoop { st with cccClang := true } rest
      else if opt = "echo" then
        cccOptionLoop { st with cccEcho := true } rest
      else if opt = "fallback" then
        cccOptionLoop { st with cccFallback := true } rest
      else if opt = "host-bits" then
        match rest with
        | [] => Except.error CCCError.indexError
        | v :: rest2 => cccOptionLoop { st with cccHostBits := some v } rest2
      else if opt = "host-machine" then
        match rest with
        | [] => Except.error CCCError.indexError
        | v :: rest2 => cccOptionLoop { st with cccHostMachine := some v } rest2
      else if opt = "host-system" then
        match rest with
        | [] => Except.error CCCError.indexError
        | v :: rest2 => cccOptionLoop { st with cccHostSystem := some v } rest2
      else if opt = "host-release" then
        match rest with
        | [] => Except.error CCCError.indexError
        | v :: rest2 => cccOptionLoop { st with cccHostRelease := some v } rest2
      else
        Except.error (CCCError.invalidOption ("invalid option: " ++ a))
    else
      Except.ok (st, a :: rest)

/-! ### Specification-side definitions

These restate parts of the specification in its own words, to be compared
with the definitions embedded from the source. -/

/-- The phase-sequence table as the specification words it: a Preprocess
phase is prepended iff the type needs preprocessing; then object → Link
only, onlyAssemble → Assemble then Link, onlyPrecompile → Precompile only,
otherwise Compile, Assemble, Link. -/
def specPhaseSequence (t : FileType) : List Phase :=
  let tail :=
    if t = FileType.ObjectType then [Phase.Link]
    else if t.onlyAssemble then [Phase.Assemble, Phase.Link]
    else if t.onlyPrecompile then [Phase.Precompile]
    else [Phase.Compile, Phase.Assemble, Phase.Link]
  if t.preprocess.isSome then Phase.Preprocess :: tail else tail

/-- The output-location policy as the specification words it: candidate
`a.out` for image outputs, otherwise `base(inputName) + "." + tempSuffix`;
at top level with a user `-o`, that argument verbatim; else at top level or
under `-save-temps`, a fresh Separate `-o basename(candidate)`; else a
freshly allocated temp file with suffix `"." + tempSuffix`. -/
def specOutputPolicy (finalOutput : Option Arg) (hasSaveTemps atTopLevel : Bool)
    (ty : FileType) (inputName : String) (counter : Nat) :
    Except BindError (Arg × Nat) :=
  let candidate? :=
    if ty = FileType.ImageType then some ("a.out")
    else (ty.tempSuffix.map (fun suf => (splitext inputName).1 ++ "." ++ suf))
  match candidate? with
  | none => Except.error BindError.assertFail
  | some candidate =>
    if atTopLevel ∧ finalOutput.isSome then
      match finalOutput with
      | some o => Except.ok (o, counter)
      | none => Except.error BindError.assertFail
    else if atTopLevel ∨ hasSaveTemps then
      Except.ok (Arg.mk Opt.oOption (basename candidate), counter)
    else
      match ty.tempSuffix with
      | none => Except.error BindError.assertFail
      | some suf =>
        Except.ok (Arg.mk Opt.oOption (mkTempName counter ("." ++ suf)),
          counter + 1)

/-! ### Chain monotonicity -/

mutual

/-- Every job phase strictly below `bound`, recursively, with each node's
inputs strictly below that node's own phase order. -/
def chainBounded (bound : Nat) : Action → Bool
  | Action.inputAction _ _ => true
  | Action.bindArchAction p _ => chainBounded bound p
  | Action.jobAction ph ins _ =>
    decide (ph.order < bound) && chainBoundedList ph.order ins

def chainBoundedList (bound : Nat) : List Action → Bool
  | [] => true
  | a :: rest => chainBounded bound a && chainBoundedList bound rest

end

/-- Consecutive phases strictly increasing along every path of the chain,
with every phase order at most `finalPhase`. -/
def chainOK (finalPhase : Nat) : Action → Bool
  | Action.inputAction _ _ => true
  | Action.bindArchAction p _ => chainOK finalPhase p
  | Action.jobAction ph ins _ =>
    decide (ph.order ≤ finalPhase) && chainBoundedList ph.order ins

/-- Strictly increasing order values along a phase list. -/
def ordersInc : List Phase → Bool
  | [] => true
  | [_] => true
  | a :: b :: rest => decide (a.order < b.order) && ordersInc (b :: rest)

theorem ordersInc_phaseSequence (k : FileType) : ordersInc (phaseSequence k) = true := by
  cases k <;> rfl

theorem ordersInc_tail {t : Phase} {rest : List Phase}
    (h : ordersInc (t :: rest) = true) : ordersInc rest = true := by
  cases rest with
  | nil => rfl
  | cons b bs => simp only [ordersInc, Bool.and_eq_true] at h; exact h.2

theorem ordersInc_head {t b : Phase} {bs : List Phase}
    (h : ordersInc (t :: b :: bs) = true) : t.order < b.order := by
  simp only [ordersInc, Bool.and_eq_true, decide_eq_true_eq] at h
  exact h.1

theorem chainBoundedList_singleton (n : Nat) (a : Action) :
    chainBoundedList n [a] = chainBounded n a := by
  simp [chainBoundedList]

/-- The invariant of the chain-building loop (`runSequence`): starting from
a non-link action whose chain is strictly increasing, below the head of the
remaining (increasing) sequence, and within the final phase, the loop only
ever returns such actions; a chain handed to the linker is strictly below
the link phase, and the link phase itself is within the final phase. -/
theorem runSequence_invariant (hSO : Bool) (fp : Nat) (k : FileType) :
    ∀ (seq : List Phase) (cur : Action),
      ordersInc seq = true →
      (∀ t ts, seq = t :: ts → chainBounded t.order cur = true) →
      chainOK fp cur = true →
      cur.isLinkJob = false →
      ((∀ a, (runSequence hSO fp k seq cur).1 = some a →
          chainOK fp a = true ∧ a.isLinkJob = false)
       ∧ (∀ x, (runSequence hSO fp k seq cur).2 = some x →
          chainBounded (Phase.order Phase.Link) x = true ∧
            Phase.order Phase.Link ≤ fp)) := by
  intro seq
  induction seq with
  | nil =>
    intro cur _ _ hok hlink
    refine ⟨?_, ?_⟩
    · intro a ha
      simp only [runSequence] at ha
      cases ha
      exact ⟨hok, hlink⟩
    · intro x hx
      simp only [runSequence] at hx
      exact Option.noConfusion hx
  | cons t rest ih =>
    intro cur hinc hhead hok hlink
    by_cases hguard : cur.type = FileType.NothingType ∨ fp < t.order
    · refine ⟨?_, ?_⟩
      · intro a ha
        simp only [runSequence, if_pos hguard] at ha
        cases ha
        exact ⟨hok, hlink⟩
      · intro x hx
        simp only [runSequence, if_pos hguard] at hx
        exact Option.noConfusion hx
    · have htle : t.order ≤ fp := by
        rcases Nat.lt_or_ge fp t.order with h | h
        · exact absurd (Or.inr h) hguard
        · exact h
      have hcurb : chainBounded t.order cur = true := hhead t rest rfl
      cases t with
      | Preprocess =>
        cases hpp : k.preprocess with
        | none =>
          refine ⟨?_, ?_⟩
          · intro a ha
            simp only [runSequence, if_neg hguard, hpp] at ha
            exact Option.noConfusion ha
          · intro x hx
            simp only [runSequence, if_neg hguard, hpp] at hx
            exact Option.noConfusion hx
        | some ppTy =>
          have hres : runSequence hSO fp k (Phase.Preprocess :: rest) cur =
              runSequence hSO fp k rest
                (Action.jobAction Phase.Preprocess [cur] ppTy) := by
            simp only [runSequence, if_neg hguard, hpp]
          rw [hres]
          refine ih (Action.jobAction Phase.Preprocess [cur] ppTy)
            (ordersInc_tail hinc) ?_ ?_ rfl
          · intro t2 ts2 h2
            subst h2
            have hlt : Phase.order Phase.Preprocess < t2.order := ordersInc_head hinc
            simp only [chainBounded, chainBoundedList, Bool.and_eq_true,
              decide_eq_true_eq]
            exact ⟨hlt, hcurb, trivial⟩
          · simp only [chainOK, chainBoundedList, Bool.and_eq_true,
              decide_eq_true_eq]
            exact ⟨htle, hcurb, trivial⟩
      | Precompile =>
        have hres : runSequence hSO fp k (Phase.Precompile :: rest) cur =
            runSequence hSO fp k rest
              (Action.jobAction Phase.Precompile [cur] FileType.PCHType) := by
          simp only [runSequence, if_neg hguard]
        rw [hres]
        refine ih _ (ordersInc_tail hinc) ?_ ?_ rfl
        · intro t2 ts2 h2
          subst h2
          have hlt : Phase.order Phase.Precompile < t2.order := ordersInc_head hinc
          simp only [chainBounded, chainBoundedList, Bool.and_eq_true,
            decide_eq_true_eq]
          exact ⟨hlt, hcurb, trivial⟩
        · simp only [chainOK, chainBoundedList, Bool.and_eq_true,
            decide_eq_true_eq]
          exact ⟨htle, hcurb, trivial⟩
      | Compile =>
        have hres : runSequence hSO fp k (Phase.Compile :: rest) cur =
            runSequence hSO fp k rest
              (Action.jobAction Phase.Compile [cur]
                (if hSO then FileType.NothingType else FileType.AsmTypeNoPP)) := by
          simp only [runSequence, if_neg hguard]
        rw [hres]
        refine ih _ (ordersInc_tail hinc) ?_ ?_ rfl
        · intro t2 ts2 h2
          subst h2
          have hlt : Phase.order Phase.Compile < t2.order := ordersInc_head hinc
          simp only [chainBounded, chainBoundedList, Bool.and_eq_true,
            decide_eq_true_eq]
          exact ⟨hlt, hcurb, trivial⟩
        · simp only [chainOK, chainBoundedList, Bool.and_eq_true,
            decide_eq_true_eq]
          exact ⟨htle, hcurb, trivial⟩
      | Assemble =>
        have hres : runSequence hSO fp k (Phase.Assemble :: rest) cur =
            runSequence hSO fp k rest
              (Action.jobAction Phase.Assemble [cur] FileType.ObjectType) := by
          simp only [runSequence, if_neg hguard]
        rw [hres]
        refine ih _ (ordersInc_tail hinc) ?_ ?_ rfl
        · intro t2 ts2 h2
          subst h2
          have hlt : Phase.order Phase.Assemble < t2.order := ordersInc_head hinc
          simp only [chainBounded, chainBoundedList, Bool.and_eq_true,
            decide_eq_true_eq]
          exact ⟨hlt, hcurb, trivial⟩
        · simp only [chainOK, chainBoundedList, Bool.and_eq_true,
            decide_eq_true_eq]
          exact ⟨htle, hcurb, trivial⟩
      | Link =>
        refine ⟨?_, ?_⟩
        · intro a ha
          simp only [runSequence, if_neg hguard] at ha
          exact Option.noConfusion ha
        · intro x hx
          simp only [runSequence, if_neg hguard] at hx
          cases hx
          exact ⟨hcurb, htle⟩
      | Lipo =>
        refine ⟨?_, ?_⟩
        · intro a ha
          simp only [runSequence, if_neg hguard] at ha
          exact Option.noConfusion ha
        · intro x hx
          simp only [runSequence, if_neg hguard] at hx
          exact Option.noConfusion hx

/-- `processInput` only emits chains satisfying the monotonicity bound, and
only hands chains strictly below the link phase to the linker list (and only
when linking is within the final phase). -/
theorem processInput_spec (hSO : Bool) (fp : Nat) (k : FileType) (input : Arg) :
    (∀ a, (processInput hSO fp k input).1 = some a →
      chainOK fp a = true ∧ a.isLinkJob = false)
    ∧ (∀ x, (processInput hSO fp k input).2 = some x →
      chainBounded (Phase.order Phase.Link) x = true ∧
        Phase.order Phase.Link ≤ fp) := by
  unfold processInput
  cases hseq : phaseSequence k with
  | nil => exact ⟨fun a ha => by simp at ha, fun x hx => by simp at hx⟩
  | cons s0 rest =>
    by_cases hskip : fp < s0.order
    · simp only [if_pos hskip]
      exact ⟨fun a ha => by simp at ha, fun x hx => by simp at hx⟩
    · simp only [if_neg hskip]
      refine runSequence_invariant hSO fp k (s0 :: rest)
        (Action.inputAction input k) ?_ ?_ rfl rfl
      · rw [← hseq]; exact ordersInc_phaseSequence k
      · intro t ts h2
        rfl

/-- The `Lipo` arm of `runSequence` (where the source raises
`RuntimeError` for an unrecognized transition) is unreachable: `Lipo` never
occurs in a phase sequence. -/
theorem lipo_not_in_phaseSequence (k : FileType) :
    Phase.Lipo ∉ phaseSequence k := by
  cases k <;> decide

/-- The `Preprocess`-without-preprocess-type arm of `runSequence` (where the
source asserts) is unreachable: `Preprocess` occurs in a phase sequence only
for types with a preprocess-source type. -/
theorem preprocess_in_phaseSequence (k : FileType) :
    Phase.Preprocess ∈ phaseSequence k → k.preprocess.isSome = true := by
  cases k <;> decide

/-- Aggregation of `processInput_spec` over the classified input list. -/
theorem processInputs_spec (hSO : Bool) (fp : Nat) :
    ∀ l : List (FileType × Arg),
      (∀ a ∈ (processInputs hSO fp l).1,
        chainOK fp a = true ∧ a.isLinkJob = false)
      ∧ (∀ x ∈ (processInputs hSO fp l).2,
        chainBounded (Phase.order Phase.Link) x = true)
      ∧ ((processInputs hSO fp l).2 ≠ [] → Phase.order Phase.Link ≤ fp) := by
  intro l
  induction l with
  | nil =>
    refine ⟨?_, ?_, ?_⟩ <;> simp [processInputs]
  | cons hd tl ih =>
    obtain ⟨ih1, ih2, ih3⟩ := ih
    obtain ⟨h1, h2⟩ := processInput_spec hSO fp hd.1 hd.2
    refine ⟨?_, ?_, ?_⟩
    · intro a ha
      simp only [processInputs, List.mem_append] at ha
      rcases ha with ha | ha
      · cases ho : (processInput hSO fp hd.1 hd.2).1 with
        | none => rw [ho] at ha; simp at ha
        | some v =>
          rw [ho] at ha
          simp only [Option.toList_some, List.mem_singleton] at ha
          subst ha
          exact h1 _ ho
      · exact ih1 a ha
    · intro x hx
      simp only [processInputs, List.mem_append] at hx
      rcases hx with hx | hx
      · cases ho : (processInput hSO fp hd.1 hd.2).2 with
        | none => rw [ho] at hx; simp at hx
        | some v =>
          rw [ho] at hx
          simp only [Option.toList_some, List.mem_singleton] at hx
          subst hx
          exact (h2 _ ho).1
      · exact ih2 x hx
    · intro hne
      simp only [processInputs] at hne
      cases ho : (processInput hSO fp hd.1 hd.2).2 with
      | none =>
        rw [ho] at hne
        simp only [Option.toList_none, List.nil_append] at hne
        exact ih3 hne
      | some v => exact (h2 v ho).2

/-- The final-phase value and per-input results `buildNormalPipeline`
computes from an argument list. -/
def normalFinalPhase (args : List Arg) : Nat :=
  computeFinalPhase (getLastArg Opt.EOption args).isSome
    (getLastArg Opt.syntaxOnlyOption args).isSome
    (getLastArg Opt.SOption args).isSome
    (getLastArg Opt.cOption args).isSome

def normalPR (fileExists : String → Bool) (args : List Arg) :
    List Action × List Action :=
  processInputs (getLastArg Opt.syntaxOnlyOption args).isSome
    (normalFinalPhase args) (classifyInputs fileExists args)

/-- Shape of every successful `buildNormalPipeline` result: the per-input
actions in input order, then the aggregated link action when the linker
list is non-empty. -/
theorem buildNormalPipeline_ok (fe : String → Bool) (args : List Arg)
    (acts : List Action) (h : buildNormalPipeline fe args = Except.ok acts) :
    acts = (normalPR fe args).1 ++
      (if (normalPR fe args).2.isEmpty then []
       else [Action.jobAction Phase.Link (normalPR fe args).2
         FileType.ImageType]) := by
  unfold buildNormalPipeline at h
  simp only at h
  split_ifs at h
  all_goals cases h
  all_goals simp_all [normalPR, normalFinalPhase]

/-! ### Claim theorems -/

/-- Claim C1: for every input classified by the normal pipeline builder,
the computed phase sequence is exactly: a Preprocess phase prepended iff
the input's type needs preprocessing; then, for object, Link only; for
onlyAssemble types, Assemble then Link; for onlyPrecompile types,
Precompile only; otherwise Compile, Assemble, Link. -/
theorem phaseSequence_matches_spec :
    ∀ t : FileType, phaseSequence t = specPhaseSequence t := by
  intro t
  cases t <;> rfl

theorem chainBoundedList_iff (n : Nat) (l : List Action) :
    chainBoundedList n l = true ↔ ∀ a ∈ l, chainBounded n a = true := by
  induction l with
  | nil => simp [chainBoundedList]
  | cons a rest ih => simp [chainBoundedList, Bool.and_eq_true, ih]

/-- A file-existence environment where every input exists (used by the
concrete witnesses). -/
def feAll : String → Bool := fun _ => true

/-- Claim C2: the normal pipeline builder never emits a per-input link job:
every successful result consists of the per-input chains (none of which is a
link job) followed, exactly when the shared linker-input list is non-empty,
by the single aggregated `JobAction(Link, linkerInputs, image)`; hence at
most one link job appears, in the last position. -/
theorem normalPipeline_single_link_last (fe : String → Bool) (args : List Arg)
    (acts : List Action) (h : buildNormalPipeline fe args = Except.ok acts) :
    ∃ pre lin, acts = pre ++
        (if lin.isEmpty then []
         else [Action.jobAction Phase.Link lin FileType.ImageType])
      ∧ (∀ a ∈ pre, a.isLinkJob = false)
      ∧ (acts.filter (fun a => a.isLinkJob)).length ≤ 1 := by
  refine ⟨(normalPR fe args).1, (normalPR fe args).2,
    buildNormalPipeline_ok fe args acts h, ?_, ?_⟩
  · intro a ha
    exact ((processInputs_spec (getLastArg Opt.syntaxOnlyOption args).isSome
      (normalFinalPhase args) (classifyInputs fe args)).1 a ha).2
  · rw [buildNormalPipeline_ok fe args acts h]
    rw [List.filter_append]
    have hpre : ((normalPR fe args).1.filter (fun a => a.isLinkJob)) = [] := by
      rw [List.filter_eq_nil_iff]
      intro a ha
      have hf := ((processInputs_spec (getLastArg Opt.syntaxOnlyOption args).isSome
        (normalFinalPhase args) (classifyInputs fe args)).1 a ha).2
      simp [hf]
    rw [hpre]
    simp only [List.nil_append]
    split_ifs
    · simp
    · simp [Action.isLinkJob]

theorem normalPipeline_single_link_last_witness :
    ∃ pre lin,
      [Action.jobAction Phase.Link
        [Action.inputAction (Arg.mk Opt.inputOption "foo.o") FileType.ObjectType]
        FileType.ImageType] = pre ++
        (if lin.isEmpty then []
         else [Action.jobAction Phase.Link lin FileType.ImageType])
      ∧ (∀ a ∈ pre, a.isLinkJob = false)
      ∧ (([Action.jobAction Phase.Link
          [Action.inputAction (Arg.mk Opt.inputOption "foo.o") FileType.ObjectType]
          FileType.ImageType].filter (fun a => a.isLinkJob)).length ≤ 1) :=
  normalPipeline_single_link_last feAll [Arg.mk Opt.inputOption "foo.o"] _ rfl

/-- Claim C4: within every action chain the normal pipeline builder
produces, consecutive phases have strictly increasing order values, and
every phase order is bounded by the final phase derived from the mode flags
(`-E` → Preprocess, `-fsyntax-only`/`-S` → Compile, `-c` → Assemble,
otherwise PostAssemble). -/
theorem normalPipeline_chain_monotone (fe : String → Bool) (args : List Arg)
    (acts : List Action) (h : buildNormalPipeline fe args = Except.ok acts) :
    ∀ a ∈ acts,
      chainOK (computeFinalPhase (getLastArg Opt.EOption args).isSome
        (getLastArg Opt.syntaxOnlyOption args).isSome
        (getLastArg Opt.SOption args).isSome
        (getLastArg Opt.cOption args).isSome) a = true := by
  intro a ha
  rw [buildNormalPipeline_ok fe args acts h, List.mem_append] at ha
  obtain ⟨h1, h2, h3⟩ := processInputs_spec
    (getLastArg Opt.syntaxOnlyOption args).isSome
    (normalFinalPhase args) (classifyInputs fe args)
  rcases ha with ha | ha
  · exact (h1 a ha).1
  · by_cases hemp : (normalPR fe args).2.isEmpty
    · rw [if_pos hemp] at ha
      simp at ha
    · rw [if_neg hemp] at ha
      simp only [List.mem_singleton] at ha
      subst ha
      have h4 : Phase.order Phase.Link ≤ normalFinalPhase args := by
        apply h3
        intro hnil
        have : (normalPR fe args).2.isEmpty = true := by
          show (processInputs _ _ _).2.isEmpty = true
          rw [hnil]
          rfl
        exact hemp this
      simp only [chainOK, Bool.and_eq_true, decide_eq_true_eq]
      exact ⟨h4, (chainBoundedList_iff _ _).mpr (fun x hx => h2 x hx)⟩

theorem normalPipeline_chain_monotone_witness :
    chainOK 3 (Action.jobAction Phase.Assemble
      [Action.inputAction (Arg.mk Opt.inputOption "foo.s") FileType.AsmTypeNoPP]
      FileType.ObjectType) = true :=
  normalPipeline_chain_monotone feAll
    [Arg.mk Opt.inputOption "foo.s", Arg.mk Opt.cOption ""]
    [Action.jobAction Phase.Assemble
      [Action.inputAction (Arg.mk Opt.inputOption "foo.s") FileType.AsmTypeNoPP]
      FileType.ObjectType] rfl _
    (by simp)

theorem wrapOne_eq (archs : List Arg) (p : Action) :
    wrapOne archs p =
      (if archs.length = 1 ∨ p.type = FileType.NothingType
       then archs.map (fun a => Action.bindArchAction p a)
       else [Action.jobAction Phase.Lipo
         (archs.map (fun a => Action.bindArchAction p a)) p.type]) := by
  unfold wrapOne
  simp [List.length_map]

theorem wrapAll_ok (multi : Bool) (archs : List Arg) :
    ∀ (acts l : List Action), wrapAll multi archs acts = Except.ok l →
      l = acts.flatMap (wrapOne archs) := by
  intro acts
  induction acts with
  | nil =>
    intro l h
    simp only [wrapAll] at h
    cases h
    rfl
  | cons p ps ih =>
    intro l h
    unfold wrapAll at h
    by_cases hc : (multi = true ∧ ¬ lipoOkType p.type = true)
    · rw [if_pos hc] at h; cases h
    · rw [if_neg hc] at h
      cases hrec : wrapAll multi archs ps with
      | error e => rw [hrec] at h; cases h
      | ok rest =>
        rw [hrec] at h
        cases h
        rw [List.flatMap_cons, ih rest hrec]

/-- Claim C3: in the driver-driver pipeline, every top-level action of the
normal pipeline is wrapped in one `BindArchAction` per collected
architecture, all wrappers sharing the same `P` subgraph value; with exactly
one architecture, or a nothing-typed `P`, the bind nodes themselves are the
top-level actions, otherwise a single `JobAction(Lipo, binds, P.type)`
is. -/
theorem driverDriver_bindArch_shared (ctx : DriverContext) (args : List Arg)
    (fas : List Action) (h : buildPipeline ctx args = Except.ok fas) :
    ∃ acts, buildNormalPipeline ctx.fileExists args = Except.ok acts
      ∧ fas = acts.flatMap (fun p =>
          if (archsOf ctx args).length = 1 ∨ p.type = FileType.NothingType
          then (archsOf ctx args).map (fun a => Action.bindArchAction p a)
          else [Action.jobAction Phase.Lipo
            ((archsOf ctx args).map (fun a => Action.bindArchAction p a))
            p.type])
      ∧ ∀ p ∈ acts,
          ∀ b ∈ (archsOf ctx args).map (fun a => Action.bindArchAction p a),
            ∃ a2, b = Action.bindArchAction p a2 := by
  unfold buildPipeline at h
  cases hn : buildNormalPipeline ctx.fileExists args with
  | error e => rw [hn] at h; cases h
  | ok acts =>
    rw [hn] at h
    simp only at h
    by_cases h1 : (1 < (archsOf ctx args).length ∧
        (findDashM args).isSome = true)
    · rw [if_pos h1] at h; cases h
    · rw [if_neg h1] at h
      by_cases h2 : (1 < (archsOf ctx args).length ∧
          ((getLastArg Opt.saveTempsOption args).isSome ||
            (getLastArg Opt.saveTempsOption2 args).isSome) = true)
      · rw [if_pos h2] at h; cases h
      · rw [if_neg h2] at h
        refine ⟨acts, rfl, ?_, ?_⟩
        · rw [wrapAll_ok _ _ _ _ h,
            funext (wrapOne_eq (archsOf ctx args))]
        · intro p _ b hb
          simp only [List.mem_map] at hb
          obtain ⟨a2, _, hb2⟩ := hb
          exact ⟨a2, hb2.symm⟩

def ctxDarwin : DriverContext := DriverContext.mk feAll "i386"

theorem driverDriver_bindArch_shared_witness :
    ∃ acts,
      buildNormalPipeline ctxDarwin.fileExists
        [Arg.mk Opt.inputOption "foo.s", Arg.mk Opt.cOption ""] = Except.ok acts
      ∧ [Action.bindArchAction
          (Action.jobAction Phase.Assemble
            [Action.inputAction (Arg.mk Opt.inputOption "foo.s")
              FileType.AsmTypeNoPP] FileType.ObjectType)
          (Arg.mk Opt.archOption "i386")] = acts.flatMap (fun p =>
          if (archsOf ctxDarwin
              [Arg.mk Opt.inputOption "foo.s", Arg.mk Opt.cOption ""]).length = 1
            ∨ p.type = FileType.NothingType
          then (archsOf ctxDarwin
            [Arg.mk Opt.inputOption "foo.s", Arg.mk Opt.cOption ""]).map
              (fun a => Action.bindArchAction p a)
          else [Action.jobAction Phase.Lipo
            ((archsOf ctxDarwin
              [Arg.mk Opt.inputOption "foo.s", Arg.mk Opt.cOption ""]).map
                (fun a => Action.bindArchAction p a)) p.type])
      ∧ ∀ p ∈ acts,
          ∀ b ∈ (archsOf ctxDarwin
            [Arg.mk Opt.inputOption "foo.s", Arg.mk Opt.cOption ""]).map
              (fun a => Action.bindArchAction p a),
            ∃ a2, b = Action.bindArchAction p a2 :=
  driverDriver_bindArch_shared ctxDarwin
    [Arg.mk Opt.inputOption "foo.s", Arg.mk Opt.cOption ""] _ rfl

theorem wrapAll_error_of_bad (archs : List Arg) :
    ∀ (acts : List Action) (p : Action), p ∈ acts → lipoOkType p.type = false →
      ∃ m, wrapAll true archs acts =
        Except.error (DriverError.invalidArguments m) := by
  intro acts
  induction acts with
  | nil => intro p hp _; exact absurd hp (List.not_mem_nil p)
  | cons q qs ih =>
    intro p hp hbad
    by_cases hq : lipoOkType q.type = true
    · rcases List.mem_cons.mp hp with rfl | hp2
      · rw [hq] at hbad; cases hbad
      · obtain ⟨m, hm⟩ := ih p hp2 hbad
        refine ⟨m, ?_⟩
        unfold wrapAll
        rw [if_neg (by simp [hq]), hm]
    · refine ⟨"Cannot use " ++ q.type.name ++ " output with multiple arch flags.", ?_⟩
      unfold wrapAll
      rw [if_pos (by simp [hq])]

/-- Claim C8: with more than one `-arch` argument (and a successfully built
normal pipeline), the driver-driver builder raises `InvalidArguments` when
any `-M*` option is present; otherwise when `-save-temps` (either spelling)
is present; otherwise for any top-level action whose output type is not
nothing, object or image.  In each case `buildPipeline` returns the error,
so no job is ever constructed. -/
theorem multiArch_rejections (ctx : DriverContext) (args : List Arg)
    (acts : List Action)
    (hn : buildNormalPipeline ctx.fileExists args = Except.ok acts)
    (hm : 1 < (archsOf ctx args).length) :
    ((findDashM args).isSome = true →
      buildPipeline ctx args =
        Except.error (DriverError.invalidArguments msgDashMMultipleArch))
    ∧ ((findDashM args).isSome = false →
      ((getLastArg Opt.saveTempsOption args).isSome ||
        (getLastArg Opt.saveTempsOption2 args).isSome) = true →
      buildPipeline ctx args =
        Except.error (DriverError.invalidArguments msgSaveTempsMultipleArch))
    ∧ ((findDashM args).isSome = false →
      ((getLastArg Opt.saveTempsOption args).isSome ||
        (getLastArg Opt.saveTempsOption2 args).isSome) = false →
      ∀ p ∈ acts, lipoOkType p.type = false →
      ∃ m, buildPipeline ctx args =
        Except.error (DriverError.invalidArguments m)) := by
  refine ⟨?_, ?_, ?_⟩
  · intro hM
    unfold buildPipeline
    rw [hn]
    simp only
    rw [if_pos ⟨hm, hM⟩]
  · intro hM hST
    unfold buildPipeline
    rw [hn]
    simp only
    rw [if_neg (by simp [hM]), if_pos ⟨hm, hST⟩]
  · intro hM hST p hp hbad
    obtain ⟨m, hw⟩ := wrapAll_error_of_bad (archsOf ctx args) acts p hp hbad
    refine ⟨m, ?_⟩
    unfold buildPipeline
    rw [hn]
    simp only
    rw [if_neg (by simp [hM]), if_neg (by simp [hST])]
    rw [show decide (1 < (archsOf ctx args).length) = true from decide_eq_true hm]
    exact hw

theorem multiArch_rejections_witness :
    buildPipeline ctxDarwin
      [Arg.mk Opt.archOption "i386", Arg.mk Opt.archOption "x86_64",
       Arg.mk Opt.saveTempsOption "", Arg.mk Opt.cOption "",
       Arg.mk Opt.inputOption "foo.c"] =
      Except.error (DriverError.invalidArguments msgSaveTempsMultipleArch) :=
  (multiArch_rejections ctxDarwin
    [Arg.mk Opt.archOption "i386", Arg.mk Opt.archOption "x86_64",
     Arg.mk Opt.saveTempsOption "", Arg.mk Opt.cOption "",
     Arg.mk Opt.inputOption "foo.c"]
    [Action.jobAction Phase.Assemble
      [Action.jobAction Phase.Compile
        [Action.jobAction Phase.Preprocess
          [Action.inputAction (Arg.mk Opt.inputOption "foo.c") FileType.CType]
          FileType.CTypeNoPP]
        FileType.AsmTypeNoPP]
      FileType.ObjectType]
    rfl (by decide)).2.1 rfl rfl

/-- Presence of an option in the argument list is exactly `getLastArg`
returning something. -/
theorem getLastArg_isSome_iff (o : Opt) (args : List Arg) :
    (getLastArg o args).isSome = true ↔ ∃ a ∈ args, a.opt = o := by
  unfold getLastArg
  rw [Option.isSome_iff_ne_none, ne_eq, List.getLast?_eq_none_iff]
  constructor
  · intro h
    by_contra hc
    push_neg at hc
    apply h
    rw [List.filter_eq_nil_iff]
    intro a ha
    simp only [decide_eq_true_eq]
    exact hc a ha
  · rintro ⟨a, ha, he⟩ hnil
    have hmem : a ∈ List.filter (fun a => decide (a.opt = o)) args :=
      List.mem_filter.mpr ⟨ha, by simp [he]⟩
    rw [hnil] at hmem
    exact absurd hmem (List.not_mem_nil a)

/-- The inputs a fused preprocess job contributes (the claimed replacement
list): the single child's own inputs when the list is a singleton job,
otherwise the list unchanged. -/
def fusionTarget : List Action → List Action
  | [Action.jobAction _ pins _] => pins
  | l => l

theorem integratedCPPFusion_fst_iff (h1 h2 h3 : Bool) (tool : Tool)
    (ins : List Action) :
    (integratedCPPFusion h1 h2 h3 tool ins).1 = true ↔
      (h1 = false ∧ h2 = false ∧ h3 = false ∧ tool.hasIntegratedCPP = true ∧
        ∃ pins ty, ins = [Action.jobAction Phase.Preprocess pins ty]) := by
  unfold integratedCPPFusion
  by_cases hc : (¬ h1 = true ∧ ¬ h2 = true ∧ ¬ h3 = true ∧
      tool.hasIntegratedCPP = true)
  · rw [if_pos hc]
    obtain ⟨c1, c2, c3, c4⟩ := hc
    rcases ins with _ | ⟨a, rest⟩
    · simp
    · rcases rest with _ | ⟨b, rest2⟩
      · cases a with
        | inputAction f t => simp
        | bindArchAction p ar => simp
        | jobAction ph pins ty =>
          cases ph <;> simp_all [Bool.not_eq_true]
      · simp
  · rw [if_neg hc]
    simp only [Bool.not_eq_true] at hc
    constructor
    · intro habs; cases habs
    · rintro ⟨f1, f2, f3, f4, _⟩
      exact absurd ⟨by simp [f1], by simp [f2], by simp [f3], f4⟩ hc

theorem integratedCPPFusion_snd (h1 h2 h3 : Bool) (tool : Tool)
    (ins : List Action) :
    (integratedCPPFusion h1 h2 h3 tool ins).2 =
      (if (integratedCPPFusion h1 h2 h3 tool ins).1 = true
       then fusionTarget ins else ins) := by
  unfold integratedCPPFusion fusionTarget
  by_cases hc : (¬ h1 = true ∧ ¬ h2 = true ∧ ¬ h3 = true ∧
      tool.hasIntegratedCPP = true)
  · rw [if_pos hc]
    rcases ins with _ | ⟨a, rest⟩
    · simp
    · rcases rest with _ | ⟨b, rest2⟩
      · cases a with
        | inputAction f t => simp
        | bindArchAction p ar => simp
        | jobAction ph pins ty => cases ph <;> simp
      · simp
  · rw [if_neg hc]
    simp

/-- Claim C5: during job binding the input list of a `JobAction` is replaced
by its single child's own inputs (skipping the Preprocess step) if and only
if the action has exactly one input, that input is a `Preprocess` job, the
selected tool has an integrated preprocessor, and none of
`-no-integrated-cpp`, `-traditional-cpp`, `-save-temps` occurs in the
argument list. -/
theorem integratedCPP_fusion_exact (args : List Arg) (tool : Tool)
    (ins : List Action) :
    ((integratedCPPFusion (mkBindFlags args).hasNoIntegratedCPP
        (mkBindFlags args).hasTraditionalCPP (mkBindFlags args).hasSaveTemps
        tool ins).1 = true ↔
      ((∃ pins ty, ins = [Action.jobAction Phase.Preprocess pins ty])
        ∧ tool.hasIntegratedCPP = true
        ∧ ¬ (∃ a ∈ args, a.opt = Opt.noIntegratedCPPOption)
        ∧ ¬ (∃ a ∈ args, a.opt = Opt.traditionalCPPOption)
        ∧ ¬ (∃ a ∈ args, a.opt = Opt.saveTempsOption ∨
              a.opt = Opt.saveTempsOption2)))
    ∧ ((integratedCPPFusion (mkBindFlags args).hasNoIntegratedCPP
        (mkBindFlags args).hasTraditionalCPP (mkBindFlags args).hasSaveTemps
        tool ins).2 =
      (if (integratedCPPFusion (mkBindFlags args).hasNoIntegratedCPP
          (mkBindFlags args).hasTraditionalCPP (mkBindFlags args).hasSaveTemps
          tool ins).1 = true
       then fusionTarget ins else ins)) := by
  refine ⟨?_, integratedCPPFusion_snd _ _ _ _ _⟩
  rw [integratedCPPFusion_fst_iff]
  have e1 : (mkBindFlags args).hasNoIntegratedCPP = false ↔
      ¬ (∃ a ∈ args, a.opt = Opt.noIntegratedCPPOption) := by
    rw [← getLastArg_isSome_iff Opt.noIntegratedCPPOption args]
    exact Bool.eq_false_iff
  have e2 : (mkBindFlags args).hasTraditionalCPP = false ↔
      ¬ (∃ a ∈ args, a.opt = Opt.traditionalCPPOption) := by
    rw [← getLastArg_isSome_iff Opt.traditionalCPPOption args]
    exact Bool.eq_false_iff
  have e3 : (mkBindFlags args).hasSaveTemps = false ↔
      ¬ (∃ a ∈ args, a.opt = Opt.saveTempsOption ∨
          a.opt = Opt.saveTempsOption2) := by
    show ((getLastArg Opt.saveTempsOption args).isSome ||
        (getLastArg Opt.saveTempsOption2 args).isSome) = false ↔ _
    constructor
    · intro hb hex
      obtain ⟨a, ha, h | h⟩ := hex
      · have hs := (getLastArg_isSome_iff Opt.saveTempsOption args).mpr ⟨a, ha, h⟩
        simp [hs] at hb
      · have hs := (getLastArg_isSome_iff Opt.saveTempsOption2 args).mpr ⟨a, ha, h⟩
        simp [hs] at hb
    · intro hno
      rw [Bool.or_eq_false_iff]
      constructor
      · cases hb : (getLastArg Opt.saveTempsOption args).isSome
        · rfl
        · obtain ⟨a, ha, h⟩ := (getLastArg_isSome_iff _ _).mp hb
          exact absurd ⟨a, ha, Or.inl h⟩ hno
      · cases hb : (getLastArg Opt.saveTempsOption2 args).isSome
        · rfl
        · obtain ⟨a, ha, h⟩ := (getLastArg_isSome_iff _ _).mp hb
          exact absurd ⟨a, ha, Or.inr h⟩ hno
  rw [e1, e2, e3]
  tauto

/-- Claim C6 (main part): the output-location choice of `createJobs` is
exactly the specification's five-rule policy; and `getLastArg` indeed
returns the user's last `-o` occurrence. -/
theorem outputPolicy_matches_spec :
    (∀ (finalOutput : Option Arg) (hasSaveTemps atTopLevel : Bool)
      (ty : FileType) (inputName : String) (counter : Nat),
      outputPolicy finalOutput hasSaveTemps atTopLevel ty inputName counter =
        specOutputPolicy finalOutput hasSaveTemps atTopLevel ty inputName
          counter)
    ∧ (∀ (pre : List Arg) (v : String),
      getLastArg Opt.oOption (pre ++ [Arg.mk Opt.oOption v]) =
        some (Arg.mk Opt.oOption v)) := by
  constructor
  · intro fo st top ty nm c
    unfold outputPolicy specOutputPolicy
    by_cases hty : ty = FileType.ImageType
    · subst hty
      cases top <;> cases fo <;> simp
    · rw [if_neg hty, if_neg hty]
      cases hsuf : ty.tempSuffix with
      | none => simp
      | some suf =>
        cases top <;> cases fo <;> simp
  · intro pre v
    unfold getLastArg
    rw [List.filter_append]
    simp [List.getLast?_concat]

/-- Claim C7 counterexample: the claim's condition set (tool can pipe
output, single input, top-level Preprocess, no `-o`) is not equivalent to
the code's pipe decision — a tool that can pipe output but does not accept
piped input satisfies the claim's conditions, yet the code does not pipe. -/
theorem pipeDecision_claim_counterexample :
    ¬ ((pipeDecision (Tool.mk ("cpp") false false true) 1 true Phase.Preprocess
        none (suppressedPipe []) = true) ↔
      ((Tool.mk ("cpp") false false true).canPipeOutput = true ∧ (1 : Nat) = 1 ∧
        true = true ∧ Phase.Preprocess = Phase.Preprocess ∧
        (none : Option Arg) = none)) := by
  decide

/-- Claim C7 (amended): `-pipe` is recognized but overridden to nothing, so
it never causes pipe output; and output goes to a pipe exactly when the
(post-fusion) input list has one element, the tool accepts piped input and
can pipe output, and the action is a top-level Preprocess with no `-o`; in
the suppressed branch a temp-file `-o` Command is emitted instead (third
conjunct shows the temp-file choice for a non-top-level output). -/
theorem pipeDecision_exact (args : List Arg) (tool : Tool) (n : Nat)
    (top : Bool) (ph : Phase) (fo : Option Arg) :
    (suppressedPipe args = none)
    ∧ (pipeDecision tool n top ph fo (suppressedPipe args) = true ↔
        (n = 1 ∧ tool.acceptsPipedInput = true ∧ tool.canPipeOutput = true ∧
          top = true ∧ ph = Phase.Preprocess ∧ fo = none))
    ∧ (outputPolicy none false false FileType.CTypeNoPP "foo.c" 0 =
        Except.ok (Arg.mk Opt.oOption (mkTempName 0 (".i")), 1)) := by
  have hs : suppressedPipe args = none := by
    unfold suppressedPipe
    cases getLastArg Opt.pipeOption args <;> rfl
  refine ⟨hs, ?_, rfl⟩
  rw [hs]
  unfold pipeDecision
  simp only [Option.isSome_none, Bool.false_eq_true, if_false]
  cases tool with
  | mk nm hicpp apin cpo =>
    simp only
    cases top <;> cases apin <;> cases cpo <;> cases fo <;>
      by_cases hph : ph = Phase.Preprocess <;>
        by_cases hn : n = 1 <;>
          simp_all

/-- Claim C9: `bindPhases` raises the cannot-specify-`-o` error exactly at
its up-front validation — when `-o` is present and more than one top-level
action has a non-nothing output type it errors before binding anything, and
otherwise binding proceeds over all top-level actions. -/
theorem bindPhases_o_validation (ctx : BindContext) (args : List Arg)
    (phases : List Action) (fuel : Nat) :
    (((getLastArg Opt.oOption args).isSome &&
        decide (1 < (phases.filter
          (fun a => decide (¬ a.type = FileType.NothingType))).length)) = true →
      bindPhases ctx args phases fuel =
        Except.error (BindError.invalidArgumentsB msgCannotSpecifyO))
    ∧ (((getLastArg Opt.oOption args).isSome &&
        decide (1 < (phases.filter
          (fun a => decide (¬ a.type = FileType.NothingType))).length)) = false →
      bindPhases ctx args phases fuel =
        (bindLoop ctx args (mkBindFlags args) fuel phases
          (BindState.mk [] 0)).map (fun st => st.jobs)) := by
  constructor <;> intro hc <;> unfold bindPhases <;>
    simp only [mkBindFlags] at hc ⊢ <;> rw [hc] <;> rfl

def tcTrivial : ToolChain :=
  ToolChain.mk (fun _ => Tool.mk ("t") false false false) (fun a _ => a)

def bctxTrivial : BindContext := BindContext.mk tcTrivial (fun _ => tcTrivial)

theorem bindPhases_o_validation_witness :
    bindPhases bctxTrivial [Arg.mk Opt.oOption "out"]
      [Action.inputAction (Arg.mk Opt.inputOption "a.o") FileType.ObjectType,
       Action.inputAction (Arg.mk Opt.inputOption "b.o") FileType.ObjectType]
      9 =
      Except.error (BindError.invalidArgumentsB msgCannotSpecifyO) :=
  (bindPhases_o_validation bctxTrivial [Arg.mk Opt.oOption "out"]
    [Action.inputAction (Arg.mk Opt.inputOption "a.o") FileType.ObjectType,
     Action.inputAction (Arg.mk Opt.inputOption "b.o") FileType.ObjectType]
    9).1 rfl

/-- Claim C10: an argument vector ending in one of the `-ccc-host-*`
testing hooks makes the option loop of `Driver.run` fail with an unguarded
out-of-bounds read (`IndexError`) while fetching the option's value, not
with a `MissingValue` or `InvalidArguments` diagnostic. -/
theorem cccHostOptions_lastToken_indexError :
    cccOptionLoop initCCCState ["-ccc-host-bits"] = Except.error CCCError.indexError
    ∧ cccOptionLoop initCCCState ["-ccc-host-machine"] =
        Except.error CCCError.indexError
    ∧ cccOptionLoop initCCCState ["-ccc-host-system"] =
        Except.error CCCError.indexError
    ∧ cccOptionLoop initCCCState ["-ccc-host-release"] =
        Except.error CCCError.indexError
    ∧ CCCError.indexError ≠ CCCError.invalidOption ("invalid option: -ccc-host-bits") := by
  refine ⟨rfl, rfl, rfl, rfl, by decide⟩

end CCC
